import Mathlib

set_option maxRecDepth 1000000

/-!
Shallow embedding of the PNG chunk codec (`src/pngme/src/chunk_type.rs` and
`src/pngme/src/chunk.rs`).

Bytes (`u8`) are modelled as `Nat` values below 256, 32-bit words (`u32`) as
`Nat` values below `2 ^ 32` with explicit `% 2 ^ 32` where the Rust code
truncates.  Fallible Rust functions returning `Result` are modelled with
`PResult`, which also has an explicit `panic` outcome for `unwrap`/`expect`
calls that can actually fire at runtime.
-/

namespace PngCodec

/-- Outcome of a Rust computation: `ok` and `err` mirror `Result`; `panic`
models a run of `unwrap`/`expect` on an `Err`/`None`, i.e. a process abort. -/
inductive PResult (α : Type) where
  | ok (value : α)
  | err (msg : String)
  | panic
  deriving DecidableEq, Repr

/-- True when the result is `ok`. -/
def PResult.isOk {α : Type} : PResult α → Bool
  | .ok _ => true
  | _ => false

/-- True when the result is `err` (a returned, recoverable error). -/
def PResult.isErr {α : Type} : PResult α → Bool
  | .err _ => true
  | _ => false

/-! ## UTF-8 (Rust `str::as_bytes` / `String::from_utf8` / `str::from_utf8`) -/

/-- The UTF-8 bytes of one scalar value (what Rust stores for a `char`). -/
def utf8EncodeCharBytes (c : Char) : List Nat :=
  let n := c.toNat
  if n < 0x80 then [n]
  else if n < 0x800 then [0xC0 + n / 64, 0x80 + n % 64]
  else if n < 0x10000 then [0xE0 + n / 4096, 0x80 + n / 64 % 64, 0x80 + n % 64]
  else [0xF0 + n / 0x40000, 0x80 + n / 4096 % 64, 0x80 + n / 64 % 64, 0x80 + n % 64]

/-- The UTF-8 byte sequence of a string (Rust `str::as_bytes`). -/
def strBytes (s : String) : List Nat :=
  s.data.flatMap utf8EncodeCharBytes

/-- A UTF-8 continuation byte (`10xxxxxx`). -/
def isContByte (b : Nat) : Bool := decide (0x80 ≤ b ∧ b < 0xC0)

/-- UTF-8 validation and decoding, as performed by Rust's
`String::from_utf8` / `str::from_utf8`: rejects overlong forms, surrogates
and out-of-range scalar values.  Fuelled by the list length so that the
recursion is structural. -/
def utf8DecodeAux : Nat → List Nat → Option (List Char)
  | _, [] => some []
  | 0, _ :: _ => none
  | fuel + 1, b :: rest =>
    if b < 0x80 then
      (utf8DecodeAux fuel rest).map (fun cs => Char.ofNat b :: cs)
    else if 0xC2 ≤ b ∧ b ≤ 0xDF then
      match rest with
      | b2 :: rest2 =>
        if isContByte b2 then
          (utf8DecodeAux fuel rest2).map
            (fun cs => Char.ofNat ((b - 0xC0) * 64 + (b2 - 0x80)) :: cs)
        else none
      | [] => none
    else if 0xE0 ≤ b ∧ b ≤ 0xEF then
      match rest with
      | b2 :: b3 :: rest2 =>
        if (if b = 0xE0 then decide (0xA0 ≤ b2 ∧ b2 < 0xC0)
            else if b = 0xED then decide (0x80 ≤ b2 ∧ b2 < 0xA0)
            else isContByte b2) && isContByte b3 then
          (utf8DecodeAux fuel rest2).map
            (fun cs =>
              Char.ofNat ((b - 0xE0) * 4096 + (b2 - 0x80) * 64 + (b3 - 0x80)) :: cs)
        else none
      | _ => none
    else if 0xF0 ≤ b ∧ b ≤ 0xF4 then
      match rest with
      | b2 :: b3 :: b4 :: rest2 =>
        if (if b = 0xF0 then decide (0x90 ≤ b2 ∧ b2 < 0xC0)
            else if b = 0xF4 then decide (0x80 ≤ b2 ∧ b2 < 0x90)
            else isContByte b2) && isContByte b3 && isContByte b4 then
          (utf8DecodeAux fuel rest2).map
            (fun cs =>
              Char.ofNat ((b - 0xF0) * 0x40000 + (b2 - 0x80) * 4096 +
                (b3 - 0x80) * 64 + (b4 - 0x80)) :: cs)
        else none
      | _ => none
    else none

/-- Decode a byte list as UTF-8 text, `none` on invalid input. -/
def utf8DecodeChars (l : List Nat) : Option (List Char) :=
  utf8DecodeAux l.length l

/-! ## ChunkType (`src/pngme/src/chunk_type.rs`) -/

/-- Rust `u8::is_ascii`: the byte is below 128. -/
def u8IsAscii (b : Nat) : Bool := decide (b < 128)

/-- Rust `u8::is_ascii_alphabetic`: `A`-`Z` or `a`-`z`. -/
def u8IsAsciiAlphabetic (b : Nat) : Bool :=
  decide ((65 ≤ b ∧ b ≤ 90) ∨ (97 ≤ b ∧ b ≤ 122))

/-- The `ChunkType` struct: a 4-byte identifier (`bytes : [u8; 4]`). -/
structure ChunkType where
  bytes : List Nat
  deriving DecidableEq, Repr

/-- Rust `TryFrom<[u8; 4]> for ChunkType`: accepts iff every byte is ASCII. -/
def ChunkType.try_from (value : List Nat) : PResult ChunkType :=
  if value.all u8IsAscii then .ok ⟨value⟩
  else .err "Invalid ascii byte found"

/-- Rust `FromStr for ChunkType`: `s.as_bytes().try_into().expect(..)` panics when
the byte length is not 4; then all bytes must be ASCII-alphabetic. -/
def ChunkType.from_str (s : String) : PResult ChunkType :=
  let bytes := strBytes s
  if bytes.length = 4 then
    if bytes.all u8IsAsciiAlphabetic then .ok ⟨bytes⟩
    else .err "ASCII alphabets only bish"
  else .panic

/-- Rust `ChunkType::is_critical`: bit 5 of byte 0 is clear. -/
def ChunkType.is_critical (ct : ChunkType) : Bool :=
  decide (ct.bytes.getD 0 0 &&& (1 <<< 5) = 0)

/-- Rust `ChunkType::is_public`: bit 5 of byte 1 is clear. -/
def ChunkType.is_public (ct : ChunkType) : Bool :=
  decide (ct.bytes.getD 1 0 &&& (1 <<< 5) = 0)

/-- Rust `ChunkType::is_reserved_bit_valid`: bit 5 of byte 2 is clear. -/
def ChunkType.is_reserved_bit_valid (ct : ChunkType) : Bool :=
  decide (ct.bytes.getD 2 0 &&& (1 <<< 5) = 0)

/-- Rust `ChunkType::is_safe_to_copy`: bit 5 of byte 3 is set. -/
def ChunkType.is_safe_to_copy (ct : ChunkType) : Bool :=
  decide (ct.bytes.getD 3 0 &&& (1 <<< 5) ≠ 0)

/-- Rust `ChunkType::is_valid` delegates to `is_reserved_bit_valid`. -/
def ChunkType.is_valid (ct : ChunkType) : Bool :=
  ct.is_reserved_bit_valid

/-- Rust `Display for ChunkType`: `str::from_utf8(&self.bytes).expect(..)` —
panics (models the `expect`) if the bytes are not valid UTF-8. -/
def ChunkType.render (ct : ChunkType) : PResult String :=
  match utf8DecodeChars ct.bytes with
  | some cs => .ok ⟨cs⟩
  | none => .panic

/-! ## CRC32 (`crc` crate, `crc32::checksum_ieee`) -/

/-- The bit-reversed IEEE CRC-32 polynomial used by the `crc` crate. -/
def crcPoly : Nat := 0xEDB88320

/-- One bit step of the table construction in `crc32::make_table`. -/
def crcStep (v : Nat) : Nat :=
  if v % 2 = 1 then (v / 2) ^^^ crcPoly else v / 2

/-- Entry `i` of the CRC-32 lookup table (`make_table`, 8 bit steps). -/
def make_table_entry (i : Nat) : Nat :=
  crcStep^[8] i

/-- One byte step of `crc32::update`:
`value = table[((value as u8) ^ i) as usize] ^ (value >> 8)`. -/
def crc_update (value : Nat) (b : Nat) : Nat :=
  make_table_entry ((value % 256) ^^^ b) ^^^ (value >>> 8)

/-- Rust `crc32::checksum_ieee`: `update(0, &IEEE_TABLE, bytes)` — complement of
the byte fold started from the complement of 0. -/
def checksum_ieee (bytes : List Nat) : Nat :=
  (bytes.foldl crc_update 0xFFFFFFFF) ^^^ 0xFFFFFFFF

/-! ## Chunk (`src/pngme/src/chunk.rs`) -/

/-- Rust `u32::from_be_bytes` on a 4-byte big-endian list. -/
def u32_from_be_bytes (l : List Nat) : Nat :=
  l.foldl (fun acc b => acc * 256 + b) 0

/-- Rust `u32::to_be_bytes` for a value below `2 ^ 32`. -/
def u32_to_be_bytes (n : Nat) : List Nat :=
  [n / 2 ^ 24 % 256, n / 2 ^ 16 % 256, n / 2 ^ 8 % 256, n % 256]

/-- The `Chunk` struct. -/
structure Chunk where
  length : Nat
  chunk_type : ChunkType
  data : List Nat
  crc : Nat
  deriving DecidableEq, Repr

/-- Rust `TryFrom<&[u8]> for Chunk`: the parser.  Mirrors the Rust control flow:
minimum-length check, big-endian length field, chunk type via
`ChunkType::try_from(..).unwrap()` (panics on a non-ASCII type byte),
declared-length check (`data_bytes.len() as u32` truncates), then the
checksum check against the trailing CRC field. -/
def Chunk.try_from (value : List Nat) : PResult Chunk :=
  if value.length < 12 then .err "Length must be at least 12"
  else
    let length := u32_from_be_bytes (value.take 4)
    let rest := value.drop 4
    let chunk_type_bytes := rest.take 4
    let rest2 := rest.drop 4
    match ChunkType.try_from chunk_type_bytes with
    | .ok chunk_type =>
      let data_bytes := rest2.take (rest2.length - 4)
      let crc_bytes := rest2.drop (rest2.length - 4)
      let crc := u32_from_be_bytes crc_bytes
      if length ≠ data_bytes.length % 2 ^ 32 then .err "Invalid chunk length"
      else if checksum_ieee (chunk_type_bytes ++ data_bytes) ≠ crc then
        .err "Invalid chunk checksum"
      else .ok ⟨length, chunk_type, data_bytes, crc⟩
    | _ => .panic

/-- Rust `Chunk::new`: serializes `length ++ type ++ data ++ crc` and feeds it back
through `Chunk::try_from(..).unwrap()`. -/
def Chunk.new (chunk_type : ChunkType) (data : List Nat) : PResult Chunk :=
  let chunk_type_and_data_bytes := chunk_type.bytes ++ data
  let crc := checksum_ieee chunk_type_and_data_bytes
  let length := data.length % 2 ^ 32
  let value :=
    u32_to_be_bytes length ++ chunk_type_and_data_bytes ++ u32_to_be_bytes crc
  match Chunk.try_from value with
  | .ok c => .ok c
  | _ => .panic

/-- Rust `Chunk::as_bytes`: `length ++ type ++ data ++ crc`, big-endian words. -/
def Chunk.as_bytes (c : Chunk) : List Nat :=
  u32_to_be_bytes c.length ++ c.chunk_type.bytes ++ c.data ++ u32_to_be_bytes c.crc

/-- Rust `Chunk::data_as_string`: `Ok(String::from_utf8(..).unwrap())` — panics
(never returns an error) when the payload is not valid UTF-8. -/
def Chunk.data_as_string (c : Chunk) : PResult String :=
  match utf8DecodeChars c.data with
  | some cs => .ok ⟨cs⟩
  | none => .panic

/-! ## Concrete data from the repository's test fixture -/

/-- The secret-message payload of the test fixture. -/
def fixtureMessage : String := "This is where your secret message will be!"

/-- The 4 type bytes of `"RuSt"`. -/
def ruStBytes : List Nat := strBytes "RuSt"

/-- The fixture buffer: length 42, type `"RuSt"`, the message, CRC 2882656334. -/
def fixtureBuffer : List Nat :=
  u32_to_be_bytes 42 ++ ruStBytes ++ strBytes fixtureMessage ++
    u32_to_be_bytes 2882656334

/-- The chunk value parsed from `fixtureBuffer`. -/
def fixtureChunk : Chunk :=
  ⟨42, ⟨ruStBytes⟩, strBytes fixtureMessage, 2882656334⟩

/-- A payload of `2 ^ 32` zero bytes (possible for a `&[u8]` on a 64-bit
host, where `usize` exceeds `u32`). -/
def hugePayload : List Nat := List.replicate (2 ^ 32) 0

/-- A chunk buffer whose payload is `2 ^ 32` bytes long: its length field
(`data_bytes.len() as u32`) truncates to 0. -/
def hugeBuffer : List Nat :=
  u32_to_be_bytes 0 ++ ruStBytes ++ hugePayload ++
    u32_to_be_bytes (checksum_ieee (ruStBytes ++ hugePayload))

/-- The function `crcShift` is the state-delta propagation of one `crc_update` step: if two
CRC states differ by `d`, after one more byte they differ by `crcShift d`. -/
def crcShift (d : Nat) : Nat :=
  make_table_entry (d % 256) ^^^ (d >>> 8)

/-- A chunk with a one-byte payload that is not valid UTF-8. -/
def c4Chunk : Chunk := ⟨1, ⟨ruStBytes⟩, [255], checksum_ieee (ruStBytes ++ [255])⟩

/-- A 12-byte buffer whose type field starts with the non-ASCII byte 200. -/
def badTypeBuffer : List Nat := [0, 0, 0, 0, 200, 65, 65, 65, 0, 0, 0, 0]

/-- The minimal well-formed chunk: zero-length payload, type `"RuSt"`. -/
def minimalChunk : Chunk := ⟨0, ⟨ruStBytes⟩, [], 3565422908⟩

/-- The 12-byte serialization of `minimalChunk`. -/
def minimalBuffer : List Nat :=
  u32_to_be_bytes 0 ++ ruStBytes ++ u32_to_be_bytes 3565422908

/-! ## Supporting lemmas: 32-bit big-endian words -/

theorem u32_to_be_bytes_length (n : Nat) : (u32_to_be_bytes n).length = 4 := rfl

theorem u32_from_to (n : Nat) (h : n < 2 ^ 32) :
    u32_from_be_bytes (u32_to_be_bytes n) = n := by
  simp only [u32_to_be_bytes, u32_from_be_bytes, List.foldl]
  omega

theorem u32_to_from (a b c d : Nat) (ha : a < 256) (hb : b < 256)
    (hc : c < 256) (hd : d < 256) :
    u32_to_be_bytes (u32_from_be_bytes [a, b, c, d]) = [a, b, c, d] := by
  simp only [u32_to_be_bytes, u32_from_be_bytes, List.foldl, List.cons.injEq,
    and_true]
  refine ⟨?_, ?_, ?_, ?_⟩ <;> omega

theorem u32_from_be_bytes_lt (a b c d : Nat) (ha : a < 256) (hb : b < 256)
    (hc : c < 256) (hd : d < 256) :
    u32_from_be_bytes [a, b, c, d] < 2 ^ 32 := by
  simp only [u32_from_be_bytes, List.foldl]
  omega

/-- Any length-4 list of bytes is rebuilt by `u32_to_be_bytes` from its
big-endian value. -/
theorem u32_to_from_list (l : List Nat) (hlen : l.length = 4)
    (hb : ∀ x ∈ l, x < 256) :
    u32_to_be_bytes (u32_from_be_bytes l) = l := by
  match l, hlen with
  | [a, b, c, d], _ =>
    exact u32_to_from a b c d (hb a (by simp)) (hb b (by simp))
      (hb c (by simp)) (hb d (by simp))

theorem u32_from_be_bytes_list_lt (l : List Nat) (hlen : l.length = 4)
    (hb : ∀ x ∈ l, x < 256) :
    u32_from_be_bytes l < 2 ^ 32 := by
  match l, hlen with
  | [a, b, c, d], _ =>
    exact u32_from_be_bytes_lt a b c d (hb a (by simp)) (hb b (by simp))
      (hb c (by simp)) (hb d (by simp))

/-! ## Supporting lemmas: xor arithmetic -/

theorem xor_shiftRight_distrib (x y k : Nat) :
    (x ^^^ y) >>> k = (x >>> k) ^^^ (y >>> k) := by
  apply Nat.eq_of_testBit_eq
  intro i
  simp [Nat.testBit_shiftRight, Nat.testBit_xor]

theorem xor_mod_two_pow (x y k : Nat) :
    (x ^^^ y) % 2 ^ k = (x % 2 ^ k) ^^^ (y % 2 ^ k) := by
  apply Nat.eq_of_testBit_eq
  intro i
  simp only [Nat.testBit_mod_two_pow, Nat.testBit_xor]
  cases Decidable.em (i < k) <;> simp [*]

theorem xor_cancel_left_iff (a b c : Nat) : a ^^^ b = a ^^^ c ↔ b = c := by
  constructor
  · intro h
    have h2 := congrArg (fun z => a ^^^ z) h
    simpa [← Nat.xor_assoc, Nat.xor_self, Nat.xor_comm] using h2
  · intro h; rw [h]

theorem xor_cancel_right_iff (a b c : Nat) : a ^^^ c = b ^^^ c ↔ a = b := by
  constructor
  · intro h
    have h2 := congrArg (fun z => z ^^^ c) h
    simpa [Nat.xor_assoc, Nat.xor_self] using h2
  · intro h; rw [h]

/-! ## Supporting lemmas: CRC-32 bounds -/

theorem crcStep_lt (v : Nat) (h : v < 2 ^ 32) : crcStep v < 2 ^ 32 := by
  unfold crcStep
  split
  · exact Nat.xor_lt_two_pow (by omega) (by norm_num [crcPoly])
  · omega

theorem make_table_entry_lt (i : Nat) (h : i < 2 ^ 32) :
    make_table_entry i < 2 ^ 32 := by
  unfold make_table_entry
  have : ∀ k v, v < 2 ^ 32 → crcStep^[k] v < 2 ^ 32 := by
    intro k
    induction k with
    | zero => simp
    | succ n ih =>
      intro v hv
      rw [Function.iterate_succ_apply]
      exact ih _ (crcStep_lt v hv)
  exact this 8 i h

theorem crc_update_lt (v b : Nat) (hv : v < 2 ^ 32) (hb : b < 2 ^ 32) :
    crc_update v b < 2 ^ 32 := by
  unfold crc_update
  refine Nat.xor_lt_two_pow (make_table_entry_lt _ ?_) ?_
  · exact Nat.xor_lt_two_pow (by omega) hb
  · rw [Nat.shiftRight_eq_div_pow]
    exact lt_of_le_of_lt (Nat.div_le_self _ _) hv

theorem foldl_crc_update_lt (l : List Nat) (v : Nat) (hv : v < 2 ^ 32)
    (hl : ∀ x ∈ l, x < 256) : l.foldl crc_update v < 2 ^ 32 := by
  induction l generalizing v with
  | nil => simpa
  | cons b rest ih =>
    simp only [List.foldl_cons]
    have hb : b < 2 ^ 32 := by have := hl b (by simp); omega
    exact ih (crc_update v b) (crc_update_lt v b hv hb)
      (fun x hx => hl x (by simp [hx]))

theorem checksum_ieee_lt (l : List Nat) (hl : ∀ x ∈ l, x < 256) :
    checksum_ieee l < 2 ^ 32 := by
  unfold checksum_ieee
  exact Nat.xor_lt_two_pow
    (foldl_crc_update_lt l 0xFFFFFFFF (by norm_num) hl) (by norm_num)

/-! ## Supporting lemmas: the parser on structured buffers -/

theorem chunkType_try_from_of_all (l : List Nat) (hA : l.all u8IsAscii = true) :
    ChunkType.try_from l = .ok ⟨l⟩ := by
  simp [ChunkType.try_from, hA]

theorem chunkType_try_from_ok_inv (l : List Nat) (ct : ChunkType)
    (h : ChunkType.try_from l = .ok ct) :
    ct = ⟨l⟩ ∧ l.all u8IsAscii = true := by
  unfold ChunkType.try_from at h
  by_cases hA : l.all u8IsAscii = true
  · rw [if_pos hA] at h
    exact ⟨(PResult.ok.injEq _ _ ▸ h.symm).symm ▸ rfl, hA⟩
  · rw [if_neg hA] at h
    exact absurd h (by simp)

/-- Parsing a well-shaped buffer `length ++ type ++ data ++ crc` whose fields
satisfy the parser's checks succeeds and returns the corresponding chunk. -/
theorem try_from_encode (tb data : List Nat) (L crc : Nat)
    (htb : tb.length = 4) (hA : tb.all u8IsAscii = true)
    (hL : L < 2 ^ 32) (hcrc : crc < 2 ^ 32)
    (hLen : L = data.length % 2 ^ 32) (hc : crc = checksum_ieee (tb ++ data)) :
    Chunk.try_from (u32_to_be_bytes L ++ tb ++ data ++ u32_to_be_bytes crc) =
      .ok ⟨L, ⟨tb⟩, data, crc⟩ := by
  have h1 : (u32_to_be_bytes L).length = 4 := rfl
  have h2 : (u32_to_be_bytes crc).length = 4 := rfl
  have hnot :
      ¬ (u32_to_be_bytes L ++ tb ++ data ++ u32_to_be_bytes crc).length < 12 := by
    simp [List.length_append, htb, u32_to_be_bytes]
    omega
  unfold Chunk.try_from
  rw [if_neg hnot]
  simp only [List.append_assoc, List.take_left' h1, List.drop_left' h1,
    List.take_left' htb, List.drop_left' htb,
    chunkType_try_from_of_all tb hA, List.length_append, h2,
    Nat.add_sub_cancel, List.take_left, List.drop_left,
    u32_from_to L hL, u32_from_to crc hcrc]
  rw [hLen, hc]
  simp

/-- Everything a successful parse tells us about the buffer and the chunk. -/
theorem try_from_ok_inv (v : List Nat) (c : Chunk)
    (h : Chunk.try_from v = .ok c) :
    12 ≤ v.length ∧
    c.length = u32_from_be_bytes (v.take 4) ∧
    c.chunk_type.bytes = (v.drop 4).take 4 ∧
    c.data = (v.drop 8).take (v.length - 12) ∧
    c.crc = u32_from_be_bytes (v.drop (v.length - 4)) ∧
    c.length = c.data.length % 2 ^ 32 ∧
    c.crc = checksum_ieee (c.chunk_type.bytes ++ c.data) ∧
    c.chunk_type.bytes.all u8IsAscii = true := by
  unfold Chunk.try_from at h
  by_cases hlen : v.length < 12
  · rw [if_pos hlen] at h
    exact absurd h (by simp)
  rw [if_neg hlen] at h
  simp only [List.drop_drop, show (4 : Nat) + 4 = 8 from rfl] at h
  cases hct : ChunkType.try_from ((v.drop 4).take 4) with
  | ok ct =>
    rw [hct] at h
    simp only at h
    obtain ⟨hcteq, hctA⟩ := chunkType_try_from_ok_inv _ _ hct
    subst hcteq
    split_ifs at h with hL hC
    push_neg at hL hC
    have e1 : (v.drop 8).length - 4 = v.length - 12 := by
      rw [List.length_drop]; omega
    have e2 : 8 + ((v.drop 8).length - 4) = v.length - 4 := by
      rw [List.length_drop]; omega
    cases h
    refine ⟨by omega, rfl, rfl, ?_, ?_, hL, hC.symm, hctA⟩
    · rw [e1]
    · rw [e2]
  | err e =>
    rw [hct] at h
    exact absurd h (by simp)
  | panic =>
    rw [hct] at h
    exact absurd h (by simp)

/-- A successfully parsed chunk re-serializes to exactly the input buffer. -/
theorem try_from_ok_as_bytes (v : List Nat) (c : Chunk)
    (hb : ∀ x ∈ v, x < 256) (h : Chunk.try_from v = .ok c) :
    c.as_bytes = v := by
  obtain ⟨h12, hlen, hct, hdata, hcrc, -, -, -⟩ := try_from_ok_inv v c h
  have d1 : v.take 4 ++ v.drop 4 = v := List.take_append_drop 4 v
  have d2 : (v.drop 4).take 4 ++ (v.drop 4).drop 4 = v.drop 4 :=
    List.take_append_drop 4 _
  have d3 : (v.drop 8).take (v.length - 12) ++ (v.drop 8).drop (v.length - 12) =
      v.drop 8 := List.take_append_drop _ _
  have d4 : (v.drop 4).drop 4 = v.drop 8 := by rw [List.drop_drop]
  have d5 : (v.drop 8).drop (v.length - 12) = v.drop (v.length - 4) := by
    rw [List.drop_drop]
    congr 1
    omega
  have w1 : u32_to_be_bytes c.length = v.take 4 := by
    rw [hlen]
    exact u32_to_from_list _ (by rw [List.length_take]; omega)
      (fun x hx => hb x (List.mem_of_mem_take hx))
  have w2 : u32_to_be_bytes c.crc = v.drop (v.length - 4) := by
    rw [hcrc]
    exact u32_to_from_list _ (by rw [List.length_drop]; omega)
      (fun x hx => hb x (List.drop_subset _ _ hx))
  unfold Chunk.as_bytes
  rw [w1, hct, hdata, w2]
  conv_rhs => rw [← d1, ← d2, d4, ← d3, d5]
  simp [List.append_assoc]

/-- What `Chunk::new` computes when the payload fits the length field. -/
theorem chunk_new_eq (ct : ChunkType) (data : List Nat)
    (hct4 : ct.bytes.length = 4) (hA : ct.bytes.all u8IsAscii = true)
    (hdata : ∀ x ∈ data, x < 256) (hlen : data.length < 2 ^ 32) :
    Chunk.new ct data =
      .ok ⟨data.length, ct, data, checksum_ieee (ct.bytes ++ data)⟩ := by
  have hmod : data.length % 2 ^ 32 = data.length := Nat.mod_eq_of_lt hlen
  have hb : ∀ x ∈ ct.bytes ++ data, x < 256 := by
    intro x hx
    rcases List.mem_append.mp hx with hx | hx
    · have := List.all_eq_true.mp hA x hx
      simp only [u8IsAscii, decide_eq_true_eq] at this
      omega
    · exact hdata x hx
  have hcrc : checksum_ieee (ct.bytes ++ data) < 2 ^ 32 := checksum_ieee_lt _ hb
  simp only [Chunk.new]
  have hassoc :
      u32_to_be_bytes (data.length % 2 ^ 32) ++ (ct.bytes ++ data) ++
        u32_to_be_bytes (checksum_ieee (ct.bytes ++ data)) =
      u32_to_be_bytes (data.length % 2 ^ 32) ++ ct.bytes ++ data ++
        u32_to_be_bytes (checksum_ieee (ct.bytes ++ data)) := by
    simp [List.append_assoc]
  rw [hassoc, try_from_encode ct.bytes data (data.length % 2 ^ 32)
    (checksum_ieee (ct.bytes ++ data)) hct4 hA
    (Nat.mod_lt _ (by norm_num)) hcrc rfl rfl]
  rw [hmod]

/-! ## Supporting lemmas: CRC-32 is GF(2)-linear and single-byte sensitive -/

theorem xor_left_comm (a b c : Nat) : a ^^^ (b ^^^ c) = b ^^^ (a ^^^ c) := by
  rw [← Nat.xor_assoc, Nat.xor_comm a b, Nat.xor_assoc]

theorem xor_xor_cancel (a b : Nat) : a ^^^ (a ^^^ b) = b := by
  rw [← Nat.xor_assoc, Nat.xor_self, Nat.zero_xor]

theorem crcStep_xor (x y : Nat) : crcStep (x ^^^ y) = crcStep x ^^^ crcStep y := by
  have hdiv : (x ^^^ y) / 2 = x / 2 ^^^ y / 2 := by
    have h := xor_shiftRight_distrib x y 1
    simpa [Nat.shiftRight_one] using h
  have hmod : (x ^^^ y) % 2 = x % 2 ^^^ y % 2 := by
    have h := xor_mod_two_pow x y 1
    simpa using h
  unfold crcStep
  rcases Nat.mod_two_eq_zero_or_one x with hx | hx <;>
    rcases Nat.mod_two_eq_zero_or_one y with hy | hy <;>
    rw [hx] at hmod <;> rw [hy] at hmod <;>
    simp [hx, hy, hmod, hdiv, Nat.xor_assoc, Nat.xor_comm, xor_left_comm,
      xor_xor_cancel, Nat.xor_self, Nat.xor_zero]

theorem crcStep_iterate_xor (k x y : Nat) :
    crcStep^[k] (x ^^^ y) = crcStep^[k] x ^^^ crcStep^[k] y := by
  induction k generalizing x y with
  | zero => simp
  | succ n ih => simp [Function.iterate_succ_apply, crcStep_xor, ih]

theorem make_table_entry_xor (x y : Nat) :
    make_table_entry (x ^^^ y) = make_table_entry x ^^^ make_table_entry y :=
  crcStep_iterate_xor 8 x y

theorem make_table_entry_zero : make_table_entry 0 = 0 := by decide

/-- For a nonzero byte index, the table entry has a nonzero top byte.  This
finite fact is what makes one-byte corruptions visible in the checksum. -/
theorem make_table_entry_hi_ne (d : Nat) (h : d < 256) (h0 : d ≠ 0) :
    make_table_entry d >>> 24 ≠ 0 := by
  have hall : ∀ e, e < 256 → e ≠ 0 → make_table_entry e >>> 24 ≠ 0 := by decide
  exact hall d h h0

theorem crc_update_xor_delta (s d b : Nat) :
    crc_update (s ^^^ d) b = crc_update s b ^^^ crcShift d := by
  have h1 : (s ^^^ d) % 256 = s % 256 ^^^ d % 256 := by
    have h := xor_mod_two_pow s d 8
    norm_num at h
    exact h
  have h2 : (s ^^^ d) >>> 8 = s >>> 8 ^^^ d >>> 8 := xor_shiftRight_distrib s d 8
  unfold crc_update crcShift
  rw [h1, h2]
  simp [make_table_entry_xor, Nat.xor_assoc, Nat.xor_comm, xor_left_comm]

theorem crc_update_byte_delta (s b b' : Nat) :
    crc_update s b' = crc_update s b ^^^ make_table_entry (b ^^^ b') := by
  unfold crc_update
  have h : s % 256 ^^^ b' = (s % 256 ^^^ b) ^^^ (b ^^^ b') := by
    simp [Nat.xor_assoc, Nat.xor_comm, xor_left_comm, xor_xor_cancel,
      Nat.xor_self, Nat.xor_zero]
  rw [h, make_table_entry_xor]
  simp [Nat.xor_assoc, Nat.xor_comm, xor_left_comm]

theorem foldl_crc_update_delta (l : List Nat) (s d : Nat) :
    l.foldl crc_update (s ^^^ d) =
      l.foldl crc_update s ^^^ crcShift^[l.length] d := by
  induction l generalizing s d with
  | nil => simp
  | cons b rest ih =>
    simp only [List.foldl_cons, List.length_cons]
    rw [crc_update_xor_delta, ih, Function.iterate_succ_apply]

theorem crcShift_ne_zero (d : Nat) (hd : d ≠ 0) (hlt : d < 2 ^ 32) :
    crcShift d ≠ 0 ∧ crcShift d < 2 ^ 32 := by
  have hd256 : d % 256 < 256 := Nat.mod_lt _ (by norm_num)
  constructor
  · by_cases h0 : d % 256 = 0
    · unfold crcShift
      rw [h0, make_table_entry_zero]
      simp only [Nat.zero_xor, Nat.shiftRight_eq_div_pow]
      norm_num
      omega
    · intro hcontra
      have h24 := make_table_entry_hi_ne (d % 256) hd256 h0
      have hz : (d >>> 8) >>> 24 = 0 := by
        rw [Nat.shiftRight_eq_div_pow, Nat.shiftRight_eq_div_pow,
          Nat.div_div_eq_div_mul]
        exact Nat.div_eq_of_lt (by norm_num at hlt ⊢; omega)
      have hsame : crcShift d >>> 24 = make_table_entry (d % 256) >>> 24 := by
        unfold crcShift
        rw [xor_shiftRight_distrib, hz, Nat.xor_zero]
      rw [hcontra] at hsame
      simp only [Nat.zero_shiftRight] at hsame
      exact h24 hsame.symm
  · unfold crcShift
    refine Nat.xor_lt_two_pow (make_table_entry_lt _ (by norm_num at hd256 ⊢; omega)) ?_
    rw [Nat.shiftRight_eq_div_pow]
    exact lt_of_le_of_lt (Nat.div_le_self _ _) hlt

theorem crcShift_iterate_ne_zero (k d : Nat) (hd : d ≠ 0) (hlt : d < 2 ^ 32) :
    crcShift^[k] d ≠ 0 := by
  induction k generalizing d with
  | zero => simpa
  | succ n ih =>
    rw [Function.iterate_succ_apply]
    obtain ⟨h1, h2⟩ := crcShift_ne_zero d hd hlt
    exact ih _ h1 h2

/-- Changing any single byte of the input changes the CRC-32 checksum. -/
theorem checksum_ieee_set_ne (l : List Nat) (i b : Nat)
    (hi : i < l.length) (hall : ∀ x ∈ l, x < 256) (hb : b < 256)
    (hne : b ≠ l.get ⟨i, hi⟩) :
    checksum_ieee (l.set i b) ≠ checksum_ieee l := by
  have hold : l.get ⟨i, hi⟩ ∈ l := List.get_mem l i hi
  have holdlt : l.get ⟨i, hi⟩ < 256 := hall _ hold
  have hsplit : l = l.take i ++ l.get ⟨i, hi⟩ :: l.drop (i + 1) := by
    conv_lhs => rw [← List.take_append_drop i l]
    congr 1
    rw [List.drop_eq_getElem_cons hi]
    simp
  have hset : l.set i b = l.take i ++ b :: l.drop (i + 1) := by
    rw [List.set_eq_take_append_cons_drop, if_pos hi]
  have hxor_ne : l.get ⟨i, hi⟩ ^^^ b ≠ 0 := by
    intro hq
    exact hne (Nat.xor_eq_zero.mp hq).symm
  have h8 : (256 : Nat) = 2 ^ 8 := by norm_num
  have hxor_lt : l.get ⟨i, hi⟩ ^^^ b < 256 := by
    rw [h8] at holdlt hb ⊢
    exact Nat.xor_lt_two_pow holdlt hb
  have hT_ne : make_table_entry (l.get ⟨i, hi⟩ ^^^ b) ≠ 0 := by
    intro h0
    exact make_table_entry_hi_ne _ hxor_lt hxor_ne (by rw [h0]; simp)
  have hT_lt : make_table_entry (l.get ⟨i, hi⟩ ^^^ b) < 2 ^ 32 :=
    make_table_entry_lt _ (lt_trans hxor_lt (by norm_num))
  unfold checksum_ieee
  rw [hset]
  conv_rhs => rw [hsplit]
  rw [List.foldl_append, List.foldl_append]
  simp only [List.foldl_cons]
  rw [crc_update_byte_delta ((l.take i).foldl crc_update 0xFFFFFFFF)
    (l.get ⟨i, hi⟩) b, foldl_crc_update_delta]
  intro hcontra
  rw [xor_cancel_right_iff] at hcontra
  have hfix := (xor_cancel_left_iff
    ((l.drop (i + 1)).foldl crc_update
      (crc_update ((l.take i).foldl crc_update 0xFFFFFFFF) (l.get ⟨i, hi⟩)))
    (crcShift^[(l.drop (i + 1)).length] (make_table_entry (l.get ⟨i, hi⟩ ^^^ b)))
    0).mp (by simpa using hcontra)
  exact crcShift_iterate_ne_zero _ _ hT_ne hT_lt hfix

/-- Parsing a well-shaped buffer whose trailing CRC field does not match the
checksum computed over type and data fails with the checksum error. -/
theorem try_from_encode_bad_crc (tb data : List Nat) (L crc : Nat)
    (htb : tb.length = 4) (hA : tb.all u8IsAscii = true)
    (hL : L < 2 ^ 32) (hcrc : crc < 2 ^ 32)
    (hLen : L = data.length % 2 ^ 32)
    (hc : checksum_ieee (tb ++ data) ≠ crc) :
    Chunk.try_from (u32_to_be_bytes L ++ tb ++ data ++ u32_to_be_bytes crc) =
      .err "Invalid chunk checksum" := by
  have h1 : (u32_to_be_bytes L).length = 4 := rfl
  have h2 : (u32_to_be_bytes crc).length = 4 := rfl
  have hnot :
      ¬ (u32_to_be_bytes L ++ tb ++ data ++ u32_to_be_bytes crc).length < 12 := by
    simp [List.length_append, htb, u32_to_be_bytes]
    omega
  unfold Chunk.try_from
  rw [if_neg hnot]
  simp only [List.append_assoc, List.take_left' h1, List.drop_left' h1,
    List.take_left' htb, List.drop_left' htb,
    chunkType_try_from_of_all tb hA, List.length_append, h2,
    Nat.add_sub_cancel, List.take_left, List.drop_left,
    u32_from_to L hL, u32_from_to crc hcrc]
  rw [if_neg (fun hq => hq hLen), if_pos hc]

/-- One-byte corruption of the type or data region of a buffer that parses
successfully (preserving ASCII in the type region and not touching the length
field or trailing CRC) makes the parse fail with the checksum error. -/
theorem try_from_set_byte (v : List Nat) (c : Chunk) (i b : Nat)
    (hv : ∀ x ∈ v, x < 256) (hok : Chunk.try_from v = .ok c)
    (hi4 : 4 ≤ i) (hiu : i < v.length - 4) (hb : b < 256)
    (hne : b ≠ v.getD i 0) (hascii : i < 8 → b < 128) :
    Chunk.try_from (v.set i b) = .err "Invalid chunk checksum" := by
  obtain ⟨h12, hlen, hctb, hdata, hcrcfield, hlenmod, hcrceq, hctA⟩ :=
    try_from_ok_inv v c hok
  have hvb := try_from_ok_as_bytes v c hv hok
  have htb4 : c.chunk_type.bytes.length = 4 := by
    rw [hctb, List.length_take, List.length_drop]
    omega
  have hD : c.data.length = v.length - 12 := by
    rw [hdata, List.length_take, List.length_drop]
    omega
  have hmidlen : (c.chunk_type.bytes ++ c.data).length = v.length - 8 := by
    rw [List.length_append, htb4, hD]
    omega
  have hj : i - 4 < (c.chunk_type.bytes ++ c.data).length := by
    rw [hmidlen]; omega
  have hmidall : ∀ x ∈ c.chunk_type.bytes ++ c.data, x < 256 := by
    intro x hx
    rcases List.mem_append.mp hx with hx | hx
    · rw [hctb] at hx
      exact hv x (List.mem_of_mem_drop (List.mem_of_mem_take hx))
    · rw [hdata] at hx
      exact hv x (List.mem_of_mem_drop (List.mem_of_mem_take hx))
  have hvassoc : v = u32_to_be_bytes c.length ++
      ((c.chunk_type.bytes ++ c.data) ++ u32_to_be_bytes c.crc) := by
    conv_lhs => rw [← hvb]
    simp [Chunk.as_bytes, List.append_assoc]
  have hset1 : v.set i b = u32_to_be_bytes c.length ++
      (((c.chunk_type.bytes ++ c.data).set (i - 4) b) ++
        u32_to_be_bytes c.crc) := by
    conv_lhs => rw [hvassoc]
    rw [List.set_append_right _ _ (by simp [u32_to_be_bytes]; omega),
      List.set_append_left _ _ (by simpa [u32_to_be_bytes] using hj),
      show (u32_to_be_bytes c.length).length = 4 from rfl]
  have hvlen : v.length = (v.length - 12) + 12 := by omega
  have hgm : v.getD i 0 = (c.chunk_type.bytes ++ c.data).getD (i - 4) 0 := by
    conv_lhs => rw [hvassoc]
    rw [List.getD_eq_getElem?_getD, List.getD_eq_getElem?_getD,
      List.getElem?_append_right (by simp [u32_to_be_bytes]; omega),
      List.getElem?_append_left (by simpa [u32_to_be_bytes] using hj)]
    simp [u32_to_be_bytes]
  have hbne' : b ≠ (c.chunk_type.bytes ++ c.data).get ⟨i - 4, hj⟩ := by
    intro hq
    apply hne
    rw [hgm, List.getD_eq_getElem?_getD, List.getElem?_eq_getElem hj]
    simpa using hq
  have hcsne :
      checksum_ieee ((c.chunk_type.bytes ++ c.data).set (i - 4) b) ≠
        checksum_ieee (c.chunk_type.bytes ++ c.data) :=
    checksum_ieee_set_ne _ _ _ hj hmidall hb hbne'
  have hL32 : c.length < 2 ^ 32 := by
    rw [hlenmod]; exact Nat.mod_lt _ (by norm_num)
  have hcrc32 : c.crc < 2 ^ 32 := by
    rw [hcrceq]; exact checksum_ieee_lt _ hmidall
  by_cases hreg : i < 8
  · -- mutation in the type region
    have hjt : i - 4 < c.chunk_type.bytes.length := by rw [htb4]; omega
    have hsplitmid : (c.chunk_type.bytes ++ c.data).set (i - 4) b =
        c.chunk_type.bytes.set (i - 4) b ++ c.data :=
      List.set_append_left _ _ hjt
    have hA' : (c.chunk_type.bytes.set (i - 4) b).all u8IsAscii = true := by
      rw [List.all_eq_true]
      intro x hx
      rcases List.mem_or_eq_of_mem_set hx with hx | hx
      · exact List.all_eq_true.mp hctA x hx
      · subst hx
        simpa [u8IsAscii] using hascii hreg
    have happ := try_from_encode_bad_crc (c.chunk_type.bytes.set (i - 4) b)
      c.data c.length c.crc (by simp [htb4]) hA' hL32 hcrc32 hlenmod
      (by rw [← hsplitmid, hcrceq]; exact hcsne)
    rw [hset1, hsplitmid]
    simpa only [List.append_assoc] using happ
  · -- mutation in the data region
    have hjd : c.chunk_type.bytes.length ≤ i - 4 := by rw [htb4]; omega
    have hsplitmid : (c.chunk_type.bytes ++ c.data).set (i - 4) b =
        c.chunk_type.bytes ++ c.data.set (i - 4 - c.chunk_type.bytes.length) b :=
      List.set_append_right _ _ hjd
    have happ := try_from_encode_bad_crc c.chunk_type.bytes
      (c.data.set (i - 4 - c.chunk_type.bytes.length) b) c.length c.crc
      htb4 hctA hL32 hcrc32 (by simpa using hlenmod)
      (by rw [← hsplitmid, hcrceq]; exact hcsne)
    rw [hset1, hsplitmid]
    simpa only [List.append_assoc] using happ

/-- The chunk invariant that a successful parse establishes. -/
theorem parse_ok_invariant (v : List Nat) (c : Chunk)
    (h : Chunk.try_from v = .ok c) :
    c.crc = checksum_ieee (c.chunk_type.bytes ++ c.data) ∧
    c.length = c.data.length % 2 ^ 32 := by
  obtain ⟨-, -, -, -, -, h1, h2, -⟩ := try_from_ok_inv v c h
  exact ⟨h2, h1⟩

/-! ## Claim theorems -/

/-- C1.  Round-trip law: for every (constructible) ChunkType `t` and every
byte sequence `data` whose length fits in a `u32`, `Chunk::new t data`
succeeds, and parsing its serialized bytes succeeds and yields a chunk whose
length, chunk type, data and crc equal those of the constructed chunk. -/
theorem construct_then_parse_roundtrip (ct : ChunkType) (data : List Nat)
    (hct4 : ct.bytes.length = 4) (hA : ct.bytes.all u8IsAscii = true)
    (hdata : ∀ x ∈ data, x < 256) (hlen : data.length < 2 ^ 32) :
    ∃ c : Chunk, Chunk.new ct data = .ok c ∧
      Chunk.try_from c.as_bytes = .ok c ∧
      c.length = data.length ∧ c.chunk_type = ct ∧ c.data = data ∧
      c.crc = checksum_ieee (ct.bytes ++ data) := by
  have hnew := chunk_new_eq ct data hct4 hA hdata hlen
  have hball : ∀ x ∈ ct.bytes ++ data, x < 256 := by
    intro x hx
    rcases List.mem_append.mp hx with hx | hx
    · have hxa := List.all_eq_true.mp hA x hx
      simp only [u8IsAscii, decide_eq_true_eq] at hxa
      omega
    · exact hdata x hx
  refine ⟨⟨data.length, ct, data, checksum_ieee (ct.bytes ++ data)⟩, hnew, ?_,
    rfl, rfl, rfl, rfl⟩
  have happ := try_from_encode ct.bytes data data.length
    (checksum_ieee (ct.bytes ++ data)) hct4 hA hlen
    (checksum_ieee_lt _ hball) (Nat.mod_eq_of_lt hlen).symm rfl
  simpa [Chunk.as_bytes] using happ

theorem construct_then_parse_roundtrip_witness :
    ((⟨ruStBytes⟩ : ChunkType).bytes.length = 4 ∧
      (⟨ruStBytes⟩ : ChunkType).bytes.all u8IsAscii = true ∧
      (∀ x ∈ ([1, 2, 3] : List Nat), x < 256) ∧
      ([1, 2, 3] : List Nat).length < 2 ^ 32) ∧
    ∃ c : Chunk, Chunk.new ⟨ruStBytes⟩ [1, 2, 3] = .ok c ∧
      Chunk.try_from c.as_bytes = .ok c ∧
      c.length = ([1, 2, 3] : List Nat).length ∧
      c.chunk_type = ⟨ruStBytes⟩ ∧ c.data = [1, 2, 3] ∧
      c.crc = checksum_ieee (ruStBytes ++ [1, 2, 3]) :=
  ⟨⟨by decide, by decide, by decide, by decide⟩,
    construct_then_parse_roundtrip ⟨ruStBytes⟩ [1, 2, 3]
      (by decide) (by decide) (by decide) (by decide)⟩

/-- C2 (amended).  Every successfully constructed chunk — parsed or built by
`Chunk::new` — satisfies `crc = CRC32(type ++ data)`; its `length` field
equals `data.len() mod 2 ^ 32`, hence equals `data.len()` exactly whenever
the payload is shorter than `2 ^ 32` bytes. -/
theorem chunk_invariant_amended :
    (∀ (v : List Nat) (c : Chunk), Chunk.try_from v = .ok c →
        c.crc = checksum_ieee (c.chunk_type.bytes ++ c.data) ∧
        c.length = c.data.length % 2 ^ 32 ∧
        (c.data.length < 2 ^ 32 → c.length = c.data.length)) ∧
    (∀ (ct : ChunkType) (data : List Nat) (c : Chunk),
        Chunk.new ct data = .ok c →
        c.crc = checksum_ieee (c.chunk_type.bytes ++ c.data) ∧
        c.length = c.data.length % 2 ^ 32 ∧
        (c.data.length < 2 ^ 32 → c.length = c.data.length)) := by
  have hmain : ∀ (v : List Nat) (c : Chunk), Chunk.try_from v = .ok c →
      c.crc = checksum_ieee (c.chunk_type.bytes ++ c.data) ∧
      c.length = c.data.length % 2 ^ 32 ∧
      (c.data.length < 2 ^ 32 → c.length = c.data.length) := by
    intro v c h
    obtain ⟨h1, h2⟩ := parse_ok_invariant v c h
    exact ⟨h1, h2, fun hlt => by rw [h2, Nat.mod_eq_of_lt hlt]⟩
  refine ⟨hmain, ?_⟩
  intro ct data c h
  simp only [Chunk.new] at h
  cases hp : Chunk.try_from (u32_to_be_bytes (data.length % 2 ^ 32) ++
      (ct.bytes ++ data) ++
      u32_to_be_bytes (checksum_ieee (ct.bytes ++ data))) with
  | ok c2 =>
    rw [hp] at h
    simp only at h
    cases h
    exact hmain _ _ hp
  | err e =>
    rw [hp] at h
    exact absurd h (by simp)
  | panic =>
    rw [hp] at h
    exact absurd h (by simp)

theorem chunk_invariant_amended_witness :
    (Chunk.try_from fixtureBuffer = .ok fixtureChunk) ∧
    (fixtureChunk.crc =
        checksum_ieee (fixtureChunk.chunk_type.bytes ++ fixtureChunk.data) ∧
      fixtureChunk.length = fixtureChunk.data.length % 2 ^ 32 ∧
      (fixtureChunk.data.length < 2 ^ 32 →
        fixtureChunk.length = fixtureChunk.data.length)) :=
  ⟨by decide, chunk_invariant_amended.1 fixtureBuffer fixtureChunk (by decide)⟩

/-- C2 (counterexample).  On a 64-bit host a parse input with a
`2 ^ 32`-byte payload is accepted — the `as u32` cast truncates — and the
resulting chunk has `length = 0` while `data.len() = 2 ^ 32`, refuting
`length == data.len()` as stated. -/
theorem chunk_invariant_counterexample :
    ∃ c : Chunk, Chunk.try_from hugeBuffer = .ok c ∧
      c.length ≠ c.data.length := by
  have hb : ∀ x ∈ ruStBytes ++ hugePayload, x < 256 := by
    intro x hx
    rcases List.mem_append.mp hx with hx | hx
    · have hr : ruStBytes = [82, 117, 83, 116] := by decide
      rw [hr] at hx
      simp only [List.mem_cons, List.not_mem_nil, or_false] at hx
      rcases hx with rfl | rfl | rfl | rfl <;> norm_num
    · rw [List.eq_of_mem_replicate hx]
      norm_num
  refine ⟨⟨0, ⟨ruStBytes⟩, hugePayload,
    checksum_ieee (ruStBytes ++ hugePayload)⟩, ?_, ?_⟩
  · have happ := try_from_encode ruStBytes hugePayload 0
      (checksum_ieee (ruStBytes ++ hugePayload)) (by decide) (by decide)
      (by norm_num) (checksum_ieee_lt _ hb)
      (by unfold hugePayload; rw [List.length_replicate, Nat.mod_self]) rfl
    exact happ
  · show (0 : Nat) ≠ hugePayload.length
    unfold hugePayload
    rw [List.length_replicate]
    norm_num

/-- C3.  Parsing any buffer shorter than 12 bytes — the empty buffer
included — fails with the "too short" error. -/
theorem parse_short_buffer_fails (v : List Nat) (h : v.length < 12) :
    Chunk.try_from v = .err "Length must be at least 12" := by
  unfold Chunk.try_from
  rw [if_pos h]

theorem parse_short_buffer_fails_witness :
    (([] : List Nat).length < 12 ∧
      Chunk.try_from [] = .err "Length must be at least 12") ∧
    (([0, 0, 0, 0, 82, 117, 83, 116, 0, 0, 0] : List Nat).length < 12 ∧
      Chunk.try_from [0, 0, 0, 0, 82, 117, 83, 116, 0, 0, 0] =
        .err "Length must be at least 12") :=
  ⟨⟨by decide, parse_short_buffer_fails [] (by decide)⟩,
    ⟨by decide, parse_short_buffer_fails _ (by decide)⟩⟩

/-- C4 (code evaluated at the failing input).  Here `Chunk::new` accepts the
non-UTF-8 payload `[255]`, and `data_as_string` on that chunk panics — the
`String::from_utf8(..).unwrap()` aborts instead of returning a decoding
error. -/
theorem data_as_string_panics_on_invalid_utf8 :
    Chunk.new ⟨ruStBytes⟩ [255] = .ok c4Chunk ∧
    c4Chunk.data_as_string = .panic ∧
    (c4Chunk.data_as_string).isErr = false :=
  ⟨by decide, by decide, by decide⟩

/-- C5 (amended).  For every buffer of at least 12 bytes whose 4-byte type
field contains a non-ASCII byte, the parse panics (the failed
`ChunkType::try_from` is unwrapped) instead of returning an error. -/
theorem parse_non_ascii_type_panics (v : List Nat) (h12 : 12 ≤ v.length)
    (hbad : ∃ x ∈ (v.drop 4).take 4, 128 ≤ x) :
    Chunk.try_from v = .panic := by
  unfold Chunk.try_from
  rw [if_neg (by omega)]
  have hcterr : ChunkType.try_from ((v.drop 4).take 4) =
      .err "Invalid ascii byte found" := by
    unfold ChunkType.try_from
    rw [if_neg ?hcond]
    case hcond =>
      intro hall
      obtain ⟨x, hx, h128⟩ := hbad
      have hxa := List.all_eq_true.mp hall x hx
      simp only [u8IsAscii, decide_eq_true_eq] at hxa
      omega
  simp only [hcterr]

theorem parse_non_ascii_type_panics_witness :
    (12 ≤ badTypeBuffer.length ∧
      (∃ x ∈ (badTypeBuffer.drop 4).take 4, 128 ≤ x)) ∧
    Chunk.try_from badTypeBuffer = .panic :=
  ⟨⟨by decide, by decide⟩,
    parse_non_ascii_type_panics badTypeBuffer (by decide) (by decide)⟩

/-- C5 (counterexample).  On a 12-byte buffer whose type field starts with
byte 200, the parse outcome is a panic, not a returned error. -/
theorem parse_non_ascii_type_counterexample :
    Chunk.try_from badTypeBuffer = .panic ∧
    (Chunk.try_from badTypeBuffer).isErr = false :=
  ⟨by decide, by decide⟩

/-- C6 (amended).  String construction succeeds iff the string is exactly 4
bytes of ASCII-alphabetic characters; a 4-byte string with a non-alphabetic
byte returns the descriptive error, but a string whose byte length is not 4
panics (the `try_into().expect(..)`) instead of returning an error. -/
theorem from_str_characterization (s : String) :
    ((ChunkType.from_str s).isOk = true ↔
      (strBytes s).length = 4 ∧ (strBytes s).all u8IsAsciiAlphabetic = true) ∧
    ((strBytes s).length = 4 → (strBytes s).all u8IsAsciiAlphabetic = false →
      ChunkType.from_str s = .err "ASCII alphabets only bish") ∧
    ((strBytes s).length ≠ 4 → ChunkType.from_str s = .panic) := by
  by_cases h4 : (strBytes s).length = 4
  · cases hall : (strBytes s).all u8IsAsciiAlphabetic with
    | true => simp [ChunkType.from_str, h4, hall, PResult.isOk]
    | false => simp [ChunkType.from_str, h4, hall, PResult.isOk]
  · simp [ChunkType.from_str, h4, PResult.isOk]

theorem from_str_characterization_witness :
    ((strBytes "Ru1t").length = 4 ∧
      (strBytes "Ru1t").all u8IsAsciiAlphabetic = false) ∧
    ChunkType.from_str "Ru1t" = .err "ASCII alphabets only bish" :=
  ⟨⟨by decide, by decide⟩,
    (from_str_characterization "Ru1t").2.1 (by decide) (by decide)⟩

/-- C6 (counterexample).  Evaluating `from_str "abc"` panics — it does not return an
error to the caller, contradicting the claim for strings of length ≠ 4. -/
theorem from_str_wrong_length_counterexample :
    ChunkType.from_str "abc" = .panic ∧
    (ChunkType.from_str "abc").isErr = false :=
  ⟨by decide, by decide⟩

/-- C7.  Byte-array construction succeeds iff every byte is ASCII (< 128),
with no alphabetic constraint, while `from_str "Ru1t"` fails although
`try_from [82, 117, 49, 116]` (the same underlying bytes) succeeds. -/
theorem constructor_asymmetry :
    (∀ l : List Nat, l.length = 4 → (∀ x ∈ l, x < 256) →
        ((ChunkType.try_from l).isOk = true ↔ l.all u8IsAscii = true)) ∧
    ChunkType.from_str "Ru1t" = .err "ASCII alphabets only bish" ∧
    ChunkType.try_from [82, 117, 49, 116] = .ok ⟨[82, 117, 49, 116]⟩ := by
  refine ⟨?_, by decide, by decide⟩
  intro l h4 hb
  cases hall : l.all u8IsAscii with
  | true => simp [ChunkType.try_from, hall, PResult.isOk]
  | false => simp [ChunkType.try_from, hall, PResult.isOk]

theorem constructor_asymmetry_witness :
    (([82, 117, 49, 116] : List Nat).length = 4 ∧
      (∀ x ∈ ([82, 117, 49, 116] : List Nat), x < 256)) ∧
    ((ChunkType.try_from [82, 117, 49, 116]).isOk = true ↔
      ([82, 117, 49, 116] : List Nat).all u8IsAscii = true) :=
  ⟨⟨by decide, by decide⟩,
    constructor_asymmetry.1 [82, 117, 49, 116] (by decide) (by decide)⟩

/-- C8 (amended).  For every buffer that parses successfully, changing one
byte of the type or data region — to a different byte value, ASCII-preserving
when in the type region — while leaving the length field and trailing CRC
unchanged makes the parse fail with the checksum error.  (Changing a type
byte to a non-ASCII value instead panics; see the counterexample.) -/
theorem single_byte_mutation_checksum_fail (v : List Nat) (c : Chunk)
    (i b : Nat) (hv : ∀ x ∈ v, x < 256) (hok : Chunk.try_from v = .ok c)
    (hi4 : 4 ≤ i) (hiu : i < v.length - 4) (hb : b < 256)
    (hne : b ≠ v.getD i 0) (hascii : i < 8 → b < 128) :
    Chunk.try_from (v.set i b) = .err "Invalid chunk checksum" :=
  try_from_set_byte v c i b hv hok hi4 hiu hb hne hascii

theorem single_byte_mutation_checksum_fail_witness :
    (Chunk.try_from minimalBuffer = .ok minimalChunk ∧
      (66 : Nat) ≠ minimalBuffer.getD 4 0) ∧
    Chunk.try_from (minimalBuffer.set 4 66) = .err "Invalid chunk checksum" :=
  ⟨⟨by decide, by decide⟩,
    single_byte_mutation_checksum_fail minimalBuffer minimalChunk 4 66
      (by decide) (by decide) (by decide) (by decide) (by decide) (by decide)
      (by decide)⟩

/-- C8 (counterexample).  Mutating type byte 0 of a well-formed buffer to
the non-ASCII value 210 does not produce the checksum error: the parse
panics on the unwrapped `ChunkType::try_from`. -/
theorem mutation_checksum_counterexample :
    (Chunk.try_from minimalBuffer).isOk = true ∧
    Chunk.try_from (minimalBuffer.set 4 210) = .panic ∧
    (Chunk.try_from (minimalBuffer.set 4 210)).isErr = false :=
  ⟨by decide, by decide, by decide⟩

/-- C9.  The fixture buffer — length 42, type `"RuSt"`, the secret message,
CRC 2882656334 — parses successfully with exactly those observable values,
and the same bytes with trailing CRC 2882656333 fail to parse. -/
theorem end_to_end_fixture :
    Chunk.try_from fixtureBuffer = .ok fixtureChunk ∧
    fixtureChunk.crc = 2882656334 ∧
    fixtureChunk.chunk_type.render = .ok "RuSt" ∧
    fixtureChunk.data_as_string =
      .ok "This is where your secret message will be!" ∧
    (Chunk.try_from (u32_to_be_bytes 42 ++ ruStBytes ++
        strBytes fixtureMessage ++ u32_to_be_bytes 2882656333)).isErr = true :=
  ⟨by decide, by decide, by decide, by decide, by decide⟩

/-- C10.  Serializing a successfully parsed chunk reproduces the input
buffer byte for byte. -/
theorem parse_then_serialize_identity (v : List Nat) (c : Chunk)
    (hv : ∀ x ∈ v, x < 256) (h : Chunk.try_from v = .ok c) :
    c.as_bytes = v :=
  try_from_ok_as_bytes v c hv h

theorem parse_then_serialize_identity_witness :
    ((∀ x ∈ fixtureBuffer, x < 256) ∧
      Chunk.try_from fixtureBuffer = .ok fixtureChunk) ∧
    fixtureChunk.as_bytes = fixtureBuffer :=
  ⟨⟨by decide, by decide⟩,
    parse_then_serialize_identity fixtureBuffer fixtureChunk
      (by decide) (by decide)⟩

end PngCodec
